import Mathlib

/-!
Verification of the relationship-preserving table sampler of
`db_scripts/db_extract_tables.py`.

The Python functions are embedded shallowly:

* SQL values are `Option Int` (`none` is NULL); a row is a list of values.
* The SQLite database is an association list of named tables; each table
  carries its `PRAGMA table_info` column list (name, primary-key flag),
  its stored rows and its `PRAGMA foreign_key_list` triples.
* Queries with `ORDER BY RANDOM()` take a caller-supplied `shuffle`
  oracle standing for the random order; `random.sample(xs, k)` is
  `(shuffle xs).take k`.  Theorems that need it assume only that the
  oracle preserves length.
* A query raising `sqlite3.Error` is modelled by an `Option` result;
  the one failure point the error-handling claims are about (the
  `WHERE col IN (...)` fetch of related rows, lines 264-360) is driven
  by an explicit `failFetch` oracle.
* Python dicts are insertion-ordered association lists; `dictSet` keeps
  an existing key in place and appends a fresh key, as dict assignment
  does.
-/

namespace DataGen

/-- A SQL value: `none` models NULL, `some n` a concrete value. -/
abbrev Val := Option Int

/-- A database row, aligned with the owning table's column list. -/
abbrev Row := List Val

/-- One table of the SQLite file as the introspection queries see it.
`cols` pairs each column name with its primary-key flag
(`PRAGMA table_info`), `fks` lists the declared foreign keys as
(ref_table, from_col, to_col) triples (`PRAGMA foreign_key_list`; the
id/seq/on_update/on_delete/match components of the PRAGMA tuple are
never read by the sampler and are not modelled). -/
structure DbTable where
  cols : List (String × Bool)
  rows : List Row
  fks : List (String × String × String)
deriving DecidableEq

/-- The database: tables in `sqlite_master` order. -/
abbrev DB := List (String × DbTable)

/-- Lookup in an insertion-ordered string-keyed dictionary. -/
def dictGet {α : Type} : List (String × α) → String → Option α
  | [], _ => none
  | (n, v) :: rest, k => if n = k then some v else dictGet rest k

/-- Insert-or-replace: an existing key keeps its position, a new key is
appended, exactly as Python dict assignment behaves. -/
def dictSet {α : Type} : List (String × α) → String → α → List (String × α)
  | [], k, v => [(k, v)]
  | (n, w) :: rest, k, v =>
    if n = k then (n, v) :: rest else (n, w) :: dictSet rest k v

/-- Python, line 112 and 211: the check `startswith("sqlite_")`, written
over the character list so that it evaluates by kernel reduction. -/
def startsWithSqlite (s : String) : Bool :=
  "sqlite_".data.isPrefixOf s.data

def dbGet (db : DB) (t : String) : Option DbTable := dictGet db t

/-- Model of `get_table_columns` (lines 56-63): column names of a table,
the empty list when the query fails. -/
def get_table_columns (db : DB) (t : String) : List String :=
  ((dbGet db t).map (fun tb => tb.cols.map (fun c => c.1))).getD []

/-- Model of `get_primary_keys` (lines 40-54): the declared primary-key columns;
if none are declared and the table has columns, its first column serves
as surrogate key; `[]` when the query fails. -/
def get_primary_keys (db : DB) (t : String) : List String :=
  match dbGet db t with
  | none => []
  | some tb =>
    let pks := (tb.cols.filter (fun c => c.2)).map (fun c => c.1)
    match pks, tb.cols with
    | [], c :: _ => [c.1]
    | _, _ => pks

/-- Index of a column name as the Python dict comprehension
`column_indices` builds it (line 148): for duplicate names the last
index wins.  SQLite forbids duplicate column names, so this also serves
as the SQL-side column resolution. -/
def column_index_of (cols : List String) (c : String) : Option Nat :=
  (((cols.enum.filter (fun p => p.2 = c)).map (fun p => p.1))).getLast?

/-- Lookup `table_info[t][column_indices].get(c, -1)`, with -1 as `none`. -/
def tiColIdx (db : DB) (t c : String) : Option Nat :=
  column_index_of (get_table_columns db t) c

/-- The query `SELECT COUNT(*) FROM t`; `none` models an sqlite error
(missing table). -/
def countRows (db : DB) (t : String) : Option Nat :=
  (dbGet db t).map (fun tb => tb.rows.length)

/-- The query `SELECT * FROM t ORDER BY RANDOM() LIMIT n`, with the random order
supplied by the shuffle oracle. -/
def selectRandomLimit (shuffle : List Row → List Row) (db : DB)
    (t : String) (n : Nat) : Option (List Row) :=
  (dbGet db t).map (fun tb => (shuffle tb.rows).take n)

/-- The query `SELECT * FROM t WHERE col IN (vals)`: rows whose value at `col` is
non-NULL and among `vals` (NULL never satisfies IN). -/
def selectWhereIn (db : DB) (t col : String) (vals : List Int) :
    Option (List Row) :=
  match dbGet db t with
  | none => none
  | some tb =>
    match column_index_of (tb.cols.map (fun c => c.1)) col with
    | none => none
    | some idx =>
      some (tb.rows.filter
        (fun r => (((r.get? idx).join).map (fun v => vals.contains v)).getD false))

/-- The query `SELECT * FROM t WHERE pk NOT IN (excl) ORDER BY RANDOM() LIMIT n`
(a NULL pk never satisfies NOT IN). -/
def selectNotInRandomLimit (shuffle : List Row → List Row) (db : DB)
    (t pkCol : String) (excl : List Int) (n : Nat) : Option (List Row) :=
  match dbGet db t with
  | none => none
  | some tb =>
    match column_index_of (tb.cols.map (fun c => c.1)) pkCol with
    | none => none
    | some idx =>
      some ((shuffle (tb.rows.filter
        (fun r => (((r.get? idx).join).map (fun v => !excl.contains v)).getD false))).take n)

/-- One foreign-key relationship tuple as `get_foreign_key_relationships`
returns it (lines 10-38); only the four fields the sampler reads are
kept. -/
structure Rel where
  table : String
  ref_table : String
  from_col : String
  to_col : String
deriving DecidableEq

/-- Model of `get_foreign_key_relationships`: each table has its
`PRAGMA foreign_key_list` rows, in `sqlite_master` order. -/
def get_foreign_key_relationships (db : DB) : List Rel :=
  (db.map (fun p => p.2.fks.map
    (fun f => Rel.mk p.1 f.1 f.2.1 f.2.2))).flatten

/-- One directional entry of the relationship map (lines 88-101). -/
structure Edge where
  related_table : String
  local_column : String
  remote_column : String
  direction : String
deriving DecidableEq

/-- Append to `rel_map[t]` on the `defaultdict(list)`. -/
def relMapAppend : List (String × List Edge) → String → Edge →
    List (String × List Edge)
  | [], t, e => [(t, [e])]
  | (n, es) :: rest, t, e =>
    if n = t then (n, es ++ [e]) :: rest
    else (n, es) :: relMapAppend rest t e

/-- Model of `build_bidirectional_relationship_map` (lines 72-103): for each
relationship whose four fields are all non-empty, append an outgoing
edge to the source table and an incoming edge to the target table. -/
def build_bidirectional_relationship_map (relationships : List Rel) :
    List (String × List Edge) :=
  relationships.foldl (fun m rel =>
    if rel.table ≠ "" ∧ rel.ref_table ≠ "" ∧ rel.from_col ≠ "" ∧ rel.to_col ≠ "" then
      relMapAppend
        (relMapAppend m rel.table
          (Edge.mk rel.ref_table rel.from_col rel.to_col "outgoing"))
        rel.ref_table
        (Edge.mk rel.table rel.to_col rel.from_col "incoming")
    else m) []

/-- The contribution a single relationship tuple is specified to make to
the relationship map: two directed edges when all four fields are
non-empty, none otherwise.  (Stated from the spec's wording, to be
compared against `build_bidirectional_relationship_map`.) -/
def edgesOf (rel : Rel) : List (String × Edge) :=
  if rel.table ≠ "" ∧ rel.ref_table ≠ "" ∧ rel.from_col ≠ "" ∧ rel.to_col ≠ "" then
    [(rel.table, Edge.mk rel.ref_table rel.from_col rel.to_col "outgoing"),
     (rel.ref_table, Edge.mk rel.table rel.to_col rel.from_col "incoming")]
  else []

/-- Lookup `relationship_map.get(t, [])`. -/
def relMapGet (m : List (String × List Edge)) (t : String) : List Edge :=
  (dictGet m t).getD []

/-- Python line 119, `max(rel_map.keys(), key=lambda t: len(rel_map[t]))`:
the first key holding the maximum edge count. -/
def startTableOf (m : List (String × List Edge)) : Option String :=
  match m with
  | [] => none
  | p :: rest =>
    some ((rest.foldl
      (fun best q => if best.2.length < q.2.length then q else best) p).1)

/-- The per-table document `extract_related_samples` stores
(lines 165-172, 331-338, 379-386): all three creation sites share this
field layout. -/
structure TableDoc where
  columns : List String
  data : List Row
  row_count : Nat
  total_rows : Nat
  sampled : Bool
  sampling_method : String
deriving DecidableEq

/-- One entry of the `processed` traversal-state dict (lines 130-136). -/
structure ProcInfo where
  sampled : Bool
  method : Option String
  related_to : List String
deriving DecidableEq

/-- The mutable traversal state of `extract_related_samples`. -/
structure ExtractState where
  tablesData : List (String × TableDoc)
  processed : List (String × ProcInfo)
  queue : List String
  seenEdges : List String
deriving DecidableEq

/-- Lookup `processed.get(t, dict()).get("sampled", False)`. -/
def procSampled (p : List (String × ProcInfo)) (t : String) : Bool :=
  ((dictGet p t).map (fun i => i.sampled)).getD false

/-- Append `cur` to `processed[t][related_to]` (line 256). -/
def addRelatedTo : List (String × ProcInfo) → String → String →
    List (String × ProcInfo)
  | [], _, _ => []
  | q :: rest, t, cur =>
    if q.1 = t then
      (q.1, ProcInfo.mk q.2.sampled q.2.method (q.2.related_to ++ [cur]))
        :: addRelatedTo rest t cur
    else q :: addRelatedTo rest t cur

/-- The seen-edges key (line 202). -/
def edgeKey (current localCol related remoteCol : String) : String :=
  current ++ ":" ++ localCol ++ ":" ++ related ++ ":" ++ remoteCol

/-- The distinct non-NULL values at column `idx` of the sampled rows
(the `join_values` set, lines 233-236). -/
def joinVals (rows : List Row) (idx : Nat) : List Int :=
  (rows.filterMap (fun r => (r.get? idx).join)).dedup

/-- The document stored for a related table (lines 331-338):
`sampled` is `related_table_count > len(related_rows)`. -/
def mkDoc (db : DB) (t : String) (rows : List Row) (cnt : Nat)
    (method : String) : TableDoc :=
  TableDoc.mk (get_table_columns db t) rows rows.length cnt
    (decide (rows.length < cnt)) method

/-- The additional random rows fetched when a partial match must be
topped up to `max_rows` (lines 280-324): excluded by primary key when one
is known and extractable, plain random rows otherwise. -/
def supplementRows (shuffle : List Row → List Row) (db : DB)
    (related : String) (matched : List Row) (additional_needed : Nat) :
    Option (List Row) :=
  match get_primary_keys db related with
  | [] => selectRandomLimit shuffle db related additional_needed
  | pk :: _ =>
    match tiColIdx db related pk with
    | none => selectRandomLimit shuffle db related additional_needed
    | some pkIdx =>
      let existing := matched.filterMap (fun r => (r.get? pkIdx).join)
      if existing = [] then
        selectRandomLimit shuffle db related additional_needed
      else
        selectNotInRandomLimit shuffle db related pk existing additional_needed

/-- The four-way sampling decision for the rows matched over a
foreign-key edge (lines 271-328); `none` models an sqlite error inside
one of the fallback/supplement queries. -/
def chooseRows (shuffle : List Row → List Row) (db : DB) (max_rows : Nat)
    (related : String) (matched : List Row) : Option (List Row × String) :=
  if max_rows < matched.length then
    some ((shuffle matched).take max_rows, "related_random_sample")
  else if matched.length = 0 then
    (selectRandomLimit shuffle db related max_rows).map
      (fun rs => (rs, "fallback_random"))
  else if matched.length < max_rows then
    (supplementRows shuffle db related matched (max_rows - matched.length)).map
      (fun ar => (matched ++ ar, "related_with_random_supplement"))
  else
    some (matched, "related_exact")

/-- One iteration of the inner for-loop of `extract_related_samples`
(lines 200-364): process relationship edge `e` attached to `current`. -/
def processEdge (shuffle : List Row → List Row)
    (failFetch : String → String → String → String → Bool)
    (db : DB) (max_rows : Nat) (current : String) (e : Edge)
    (st : ExtractState) : ExtractState :=
  let key := edgeKey current e.local_column e.related_table e.remote_column
  if key ∈ st.seenEdges then st
  else
    let st1 : ExtractState := { st with seenEdges := key :: st.seenEdges }
    if startsWithSqlite e.related_table then st1
    else
      match dictGet st1.tablesData current with
      | none => st1
      | some curDoc =>
        match tiColIdx db current e.local_column with
        | none => st1
        | some idx =>
          let jv := joinVals curDoc.data idx
          if jv = [] then st1
          else
            match countRows db e.related_table with
            | none => st1
            | some cnt =>
              if procSampled st1.processed e.related_table then
                { st1 with processed := addRelatedTo st1.processed e.related_table current }
              else if failFetch current e.local_column e.related_table e.remote_column then
                st1
              else
                match selectWhereIn db e.related_table e.remote_column jv with
                | none => st1
                | some matched =>
                  match chooseRows shuffle db max_rows e.related_table matched with
                  | none => st1
                  | some rm =>
                    { st1 with
                      tablesData := dictSet st1.tablesData e.related_table
                        (mkDoc db e.related_table rm.1 cnt rm.2),
                      processed := dictSet st1.processed e.related_table
                        (ProcInfo.mk true (some rm.2) [current]),
                      queue :=
                        if e.related_table ∈ st1.queue then st1.queue
                        else st1.queue ++ [e.related_table] }

/-- The BFS while-loop (lines 192-364), fuel-indexed with one unit of
fuel per dequeue.  Every dequeue is matched by enqueues of freshly
sampled tables only, so `all_tables.length + 1` units always drain the
queue. -/
def bfsRun (shuffle : List Row → List Row)
    (failFetch : String → String → String → String → Bool)
    (db : DB) (rel_map : List (String × List Edge)) (max_rows : Nat) :
    Nat → ExtractState → ExtractState
  | 0, st => st
  | fuel + 1, st =>
    match st.queue with
    | [] => st
    | current :: rest =>
      bfsRun shuffle failFetch db rel_map max_rows fuel
        ((relMapGet rel_map current).foldl
          (fun s e => processEdge shuffle failFetch db max_rows current e s)
          { st with queue := rest })

/-- Tail-loop body (lines 367-396): independent random sample for a
table the traversal never sampled; a failing query skips the table. -/
def fillTable (shuffle : List Row → List Row) (db : DB) (max_rows : Nat)
    (st : ExtractState) (t : String) : ExtractState :=
  if procSampled st.processed t then st
  else
    match dbGet db t with
    | none => st
    | some tb =>
      let cnt := tb.rows.length
      let sample_size := min max_rows cnt
      let rows := (shuffle tb.rows).take sample_size
      { st with
        tablesData := dictSet st.tablesData t
          (TableDoc.mk (get_table_columns db t) rows rows.length cnt
            (decide (sample_size < cnt)) "random_unrelated"),
        processed := dictSet st.processed t
          (ProcInfo.mk true (some "random_unrelated") []) }

/-- The tail loop over `all_tables` (lines 366-396). -/
def fillUnreached (shuffle : List Row → List Row) (db : DB)
    (max_rows : Nat) (all_tables : List String) (st : ExtractState) :
    ExtractState :=
  all_tables.foldl (fillTable shuffle db max_rows) st

/-- The `__meta__` entry (lines 398-406). -/
structure ExtractMeta where
  sampling_summary : List (String × ProcInfo)
  table_relationships : List (String × List String)
deriving DecidableEq

/-- Result of `extract_related_samples`.  The code stores the meta
document under the reserved key `__meta__` of the same dict as the
table samples; it is modelled as a separate field (`meta = none` for the
empty-database early return, which stores no meta entry). -/
structure ExtractResult where
  tables : List (String × TableDoc)
  meta : Option ExtractMeta
deriving DecidableEq

/-- The list `all_tables` (line 112): every table whose name does not start with
`sqlite_`. -/
def allTables (db : DB) : List String :=
  (db.map (fun p => p.1)).filter (fun n => !startsWithSqlite n)

/-- The traversal state right after root sampling (lines 129-190):
`processed` covers every table as unsampled, then the start table is
sampled with up to `max_rows` rows tagged `initial_random`. -/
def initState (shuffle : List Row → List Row) (db : DB) (max_rows : Nat)
    (start_table : String) (stb : DbTable) : ExtractState :=
  let cnt := stb.rows.length
  let start_rows :=
    if max_rows < cnt then (shuffle stb.rows).take max_rows else stb.rows
  let doc0 := TableDoc.mk (get_table_columns db start_table) start_rows
    start_rows.length cnt (decide (max_rows < cnt)) "initial_random"
  let processed0 := (allTables db).map (fun t => (t, ProcInfo.mk false none []))
  ExtractState.mk [(start_table, doc0)]
    (dictSet processed0 start_table (ProcInfo.mk true (some "initial_random") []))
    [start_table] []

/-- The final traversal state: root sampling, BFS expansion, then the
tail loop over the unreached tables. -/
def finalState (shuffle : List Row → List Row)
    (failFetch : String → String → String → String → Bool)
    (db : DB) (relationships : List Rel) (max_rows : Nat)
    (start_table : String) (stb : DbTable) : ExtractState :=
  fillUnreached shuffle db max_rows (allTables db)
    (bfsRun shuffle failFetch db
      (build_bidirectional_relationship_map relationships) max_rows
      ((allTables db).length + 1)
      (initState shuffle db max_rows start_table stb))

/-- The successful-run result of `extract_related_samples`. -/
def extractMain (shuffle : List Row → List Row)
    (failFetch : String → String → String → String → Bool)
    (db : DB) (relationships : List Rel) (max_rows : Nat)
    (start_table : String) (stb : DbTable) : ExtractResult :=
  let st2 := finalState shuffle failFetch db relationships max_rows start_table stb
  ExtractResult.mk st2.tablesData
    (some (ExtractMeta.mk st2.processed
      ((build_bidirectional_relationship_map relationships).map
        (fun p => (p.1, p.2.map (fun e => e.related_table))))))

/-- Model of `extract_related_samples` (lines 105-408).  `none` models the
exception that propagates to the caller when the chosen start table is
outside `table_info`/the database (KeyError or sqlite error at lines
152-166), triggering the caller's basic-extraction fallback. -/
def extract_related_samples (shuffle : List Row → List Row)
    (failFetch : String → String → String → String → Bool)
    (db : DB) (relationships : List Rel) (max_rows : Nat) :
    Option ExtractResult :=
  let all_tables := allTables db
  let rel_map := build_bidirectional_relationship_map relationships
  let start? :=
    match rel_map with
    | [] => all_tables.head?
    | _ :: _ => startTableOf rel_map
  match start? with
  | none => some (ExtractResult.mk [] none)
  | some start_table =>
    if start_table ∈ all_tables then
      match dbGet db start_table with
      | none => none
      | some stb =>
        some (extractMain shuffle failFetch db relationships max_rows start_table stb)
    else none

/-- A JSON value, as far as the exported documents need. -/
inductive J where
  | null : J
  | bool : Bool → J
  | nat : Nat → J
  | int : Int → J
  | str : String → J
  | arr : List J → J
  | obj : List (String × J) → J

/-- Top-level field names of a JSON object. -/
def objKeys : J → List String
  | J.obj kvs => kvs.map (fun p => p.1)
  | _ => []

def encodeVal : Val → J
  | none => J.null
  | some n => J.int n

def encodeRows (rows : List Row) : J :=
  J.arr (rows.map (fun r => J.arr (r.map encodeVal)))

def encodeStrList (l : List String) : J :=
  J.arr (l.map J.str)

/-- The six-field table document written for every table of the
relationship-based path (dict-literal key order of lines 165-172,
331-338 and 379-386). -/
def encodeDoc (d : TableDoc) : J :=
  J.obj [("columns", encodeStrList d.columns),
         ("data", encodeRows d.data),
         ("row_count", J.nat d.row_count),
         ("total_rows", J.nat d.total_rows),
         ("sampled", J.bool d.sampled),
         ("sampling_method", J.str d.sampling_method)]

def encodeRel (r : Rel) : J :=
  J.obj [("table", J.str r.table), ("ref_table", J.str r.ref_table),
         ("from_col", J.str r.from_col), ("to_col", J.str r.to_col)]

def encodeProcInfo (i : ProcInfo) : J :=
  J.obj [("sampled", J.bool i.sampled),
         ("method", match i.method with | some s => J.str s | none => J.null),
         ("related_to", encodeStrList i.related_to)]

def encodeMeta (m : ExtractMeta) : J :=
  J.obj [("sampling_summary",
          J.obj (m.sampling_summary.map (fun p => (p.1, encodeProcInfo p.2)))),
         ("table_relationships",
          J.obj (m.table_relationships.map (fun p => (p.1, encodeStrList p.2))))]

/-- Per-table document of the no-foreign-key direct path
(lines 451-457): five fields, no `row_count`, method tag `"random"`;
`none` models a failing query, which skips the file. -/
def tableJsonNoFk (shuffle : List Row → List Row) (db : DB)
    (max_rows : Nat) (t : String) : Option (String × J) :=
  match dbGet db t with
  | none => none
  | some tb =>
    let cnt := tb.rows.length
    let row_limit := min max_rows cnt
    let rows := (shuffle tb.rows).take row_limit
    some (t ++ ".json", J.obj [
      ("columns", encodeStrList (tb.cols.map (fun c => c.1))),
      ("data", encodeRows rows),
      ("total_rows", J.nat cnt),
      ("sampled", J.bool (decide (row_limit < cnt))),
      ("sampling_method", J.str "random")])

/-- Per-table document of the exception-fallback path (lines 512-538):
five fields, `LIMIT max_rows`, method tag `"fallback_random"`. -/
def tableJsonBasic (shuffle : List Row → List Row) (db : DB)
    (max_rows : Nat) (t : String) : Option (String × J) :=
  match dbGet db t with
  | none => none
  | some tb =>
    let cnt := tb.rows.length
    let rows := (shuffle tb.rows).take max_rows
    some (t ++ ".json", J.obj [
      ("columns", encodeStrList (tb.cols.map (fun c => c.1))),
      ("data", encodeRows rows),
      ("total_rows", J.nat cnt),
      ("sampled", J.bool (decide (max_rows < cnt))),
      ("sampling_method", J.str "fallback_random")])

/-- Document `metadata.json` (lines 487-502): `extraction_info` appears only when
the sample map carried a `__meta__` entry. -/
def encodeMetadata (relationships : List Rel) (meta : Option ExtractMeta)
    (max_rows : Nat) : J :=
  match meta with
  | some m =>
    J.obj [("relationships", J.arr (relationships.map encodeRel)),
           ("extraction_info", encodeMeta m),
           ("max_rows_per_table", J.nat max_rows)]
  | none =>
    J.obj [("relationships", J.arr (relationships.map encodeRel)),
           ("max_rows_per_table", J.nat max_rows)]

/-- Model of `sqlite_to_connected_json_files` (lines 410-548): the files written
for one database, as (filename, document) pairs in write order.  With no
declared foreign keys the direct path runs; otherwise the related
extraction runs, and if it raises, the basic per-table fallback. -/
def sqlite_to_connected_json_files (shuffle : List Row → List Row)
    (failFetch : String → String → String → String → Bool)
    (db : DB) (max_rows : Nat) : List (String × J) :=
  let tables := db.map (fun p => p.1)
  let relationships := get_foreign_key_relationships db
  if relationships = [] then
    tables.filterMap (tableJsonNoFk shuffle db max_rows)
  else
    match extract_related_samples shuffle failFetch db relationships max_rows with
    | some res =>
      (res.tables.filterMap (fun p =>
        if p.1 = "__meta__" then none
        else some (p.1 ++ ".json", encodeDoc p.2)))
      ++ [("metadata.json", encodeMetadata relationships res.meta max_rows)]
    | none => tables.filterMap (tableJsonBasic shuffle db max_rows)

/-! ### Dictionary lemmas -/

theorem dictGet_dictSet_self {α : Type} (d : List (String × α)) (k : String)
    (v : α) : dictGet (dictSet d k v) k = some v := by
  induction d with
  | nil => simp [dictGet, dictSet]
  | cons p rest ih =>
    by_cases h : p.1 = k
    · simp [dictSet, dictGet, h]
    · simp [dictSet, dictGet, h, ih]

theorem dictGet_dictSet_ne {α : Type} (d : List (String × α)) {k k' : String}
    (v : α) (h : k' ≠ k) : dictGet (dictSet d k v) k' = dictGet d k' := by
  induction d with
  | nil =>
    simp only [dictSet, dictGet]
    rw [if_neg (fun hh => h hh.symm)]
  | cons p rest ih =>
    by_cases hh : p.1 = k
    · have hkk : ¬k = k' := fun hc => h hc.symm
      simp [dictSet, hh, dictGet, hkk]
    · simp only [dictSet, if_neg hh, dictGet]
      by_cases hk : p.1 = k'
      · simp [hk]
      · simp [hk, ih]

theorem mem_dictSet {α : Type} {d : List (String × α)} {k : String} {v : α}
    {p : String × α} (h : p ∈ dictSet d k v) : (p.1 = k ∧ p.2 = v) ∨ p ∈ d := by
  induction d with
  | nil =>
    simp only [dictSet, List.mem_singleton] at h
    subst h; left; exact ⟨rfl, rfl⟩
  | cons q rest ih =>
    by_cases hh : q.1 = k
    · simp only [dictSet, if_pos hh, List.mem_cons] at h
      rcases h with h | h
      · subst h; left; exact ⟨hh, rfl⟩
      · right; exact List.mem_cons_of_mem _ h
    · simp only [dictSet, if_neg hh, List.mem_cons] at h
      rcases h with h | h
      · right; exact h ▸ List.mem_cons_self _ _
      · rcases ih h with h2 | h2
        · left; exact h2
        · right; exact List.mem_cons_of_mem _ h2

theorem dictGet_mem_pair {α : Type} {d : List (String × α)} {k : String}
    {v : α} (h : dictGet d k = some v) : (k, v) ∈ d := by
  induction d with
  | nil => simp [dictGet] at h
  | cons p rest ih =>
    by_cases hh : p.1 = k
    · simp only [dictGet, if_pos hh, Option.some.injEq] at h
      subst h
      have : p = (k, p.2) := by rw [← hh]
      rw [← this]; exact List.mem_cons_self _ _
    · simp only [dictGet, if_neg hh] at h
      exact List.mem_cons_of_mem _ (ih h)

theorem dictGet_mem_keys {α : Type} {d : List (String × α)} {k : String}
    {v : α} (h : dictGet d k = some v) : k ∈ d.map Prod.fst :=
  List.mem_map.mpr ⟨(k, v), dictGet_mem_pair h, rfl⟩

theorem mem_keys_dictGet_isSome {α : Type} {d : List (String × α)}
    {k : String} (h : k ∈ d.map Prod.fst) : ∃ v, dictGet d k = some v := by
  induction d with
  | nil => simp at h
  | cons p rest ih =>
    by_cases hh : p.1 = k
    · exact ⟨p.2, by simp [dictGet, hh]⟩
    · simp only [List.map_cons, List.mem_cons] at h
      rcases h with h | h
      · exact absurd h.symm hh
      · obtain ⟨v, hv⟩ := ih h
        exact ⟨v, by simp [dictGet, hh, hv]⟩

theorem keys_dictSet_of_mem {α : Type} {d : List (String × α)} {k : String}
    (v : α) (h : k ∈ d.map Prod.fst) :
    (dictSet d k v).map Prod.fst = d.map Prod.fst := by
  induction d with
  | nil => simp at h
  | cons p rest ih =>
    by_cases hh : p.1 = k
    · simp [dictSet, hh]
    · simp only [List.map_cons, List.mem_cons] at h
      rcases h with h | h
      · exact absurd h.symm hh
      · simp [dictSet, hh, ih h]

theorem keys_dictSet_of_not_mem {α : Type} {d : List (String × α)}
    {k : String} (v : α) (h : k ∉ d.map Prod.fst) :
    (dictSet d k v).map Prod.fst = d.map Prod.fst ++ [k] := by
  induction d with
  | nil => simp [dictSet]
  | cons p rest ih =>
    simp only [List.map_cons, List.mem_cons] at h
    push_neg at h
    have hne : ¬p.1 = k := fun hh => h.1 hh.symm
    simp [dictSet, hne, ih h.2]

theorem mem_keys_dictSet_of_mem {α : Type} {d : List (String × α)}
    {k t : String} (v : α) (h : t ∈ d.map Prod.fst) :
    t ∈ (dictSet d k v).map Prod.fst := by
  by_cases hk : k ∈ d.map Prod.fst
  · rwa [keys_dictSet_of_mem v hk]
  · rw [keys_dictSet_of_not_mem v hk]
    exact List.mem_append_left _ h

theorem self_mem_keys_dictSet {α : Type} (d : List (String × α))
    (k : String) (v : α) : k ∈ (dictSet d k v).map Prod.fst :=
  dictGet_mem_keys (dictGet_dictSet_self d k v)

theorem nodup_keys_dictSet {α : Type} {d : List (String × α)} {k : String}
    (v : α) (h : (d.map Prod.fst).Nodup) :
    ((dictSet d k v).map Prod.fst).Nodup := by
  by_cases hk : k ∈ d.map Prod.fst
  · rwa [keys_dictSet_of_mem v hk]
  · rw [keys_dictSet_of_not_mem v hk]
    refine h.append (List.nodup_singleton k) ?_
    intro x hx hxk
    rw [List.mem_singleton] at hxk
    subst hxk
    exact hk hx

/-! ### addRelatedTo lemmas -/

theorem keys_addRelatedTo (p : List (String × ProcInfo)) (t cur : String) :
    (addRelatedTo p t cur).map Prod.fst = p.map Prod.fst := by
  induction p with
  | nil => rfl
  | cons q rest ih =>
    by_cases h : q.1 = t
    · simp [addRelatedTo, h, ih]
    · simp [addRelatedTo, h, ih]

theorem dictGet_addRelatedTo (p : List (String × ProcInfo)) (t cur u : String) :
    dictGet (addRelatedTo p t cur) u =
      if u = t then
        (dictGet p u).map
          (fun i => ProcInfo.mk i.sampled i.method (i.related_to ++ [cur]))
      else dictGet p u := by
  induction p with
  | nil => by_cases h : u = t <;> simp [addRelatedTo, dictGet, h]
  | cons q rest ih =>
    by_cases hq : q.1 = t
    · by_cases hu : q.1 = u
      · have hut : u = t := hu.symm.trans hq
        simp [addRelatedTo, hq, dictGet, hu, hut]
      · simp only [addRelatedTo, if_pos hq, dictGet, if_neg hu]
        exact ih
    · by_cases hu : q.1 = u
      · have hut : ¬u = t := fun h => hq (hu.trans h)
        simp [addRelatedTo, hq, dictGet, hu, hut]
      · simp only [addRelatedTo, if_neg hq, dictGet, if_neg hu]
        exact ih

theorem procSampled_addRelatedTo (p : List (String × ProcInfo))
    (t cur u : String) : procSampled (addRelatedTo p t cur) u = procSampled p u := by
  unfold procSampled
  rw [dictGet_addRelatedTo]
  by_cases h : u = t
  · simp only [if_pos h]
    cases dictGet p u <;> rfl
  · rw [if_neg h]

/-! ### Generic fold preservation -/

theorem foldl_preserves {α β : Type} (P : α → Prop) (f : α → β → α)
    (l : List β) (h : ∀ s b, b ∈ l → P s → P (f s b)) :
    ∀ s, P s → P (l.foldl f s) := by
  induction l with
  | nil => intro s hs; simpa using hs
  | cons b bs ih =>
    intro s hs
    exact ih (fun s' b' hb' => h s' b' (List.mem_cons_of_mem _ hb'))
      (f s b) (h s b (List.mem_cons_self _ _) hs)

/-! ### Row-count bounds for the sampling queries -/

theorem selectRandomLimit_length_le {shuffle : List Row → List Row}
    {db : DB} {t : String} {n : Nat} {rs : List Row}
    (h : selectRandomLimit shuffle db t n = some rs) : rs.length ≤ n := by
  unfold selectRandomLimit at h
  rcases Option.map_eq_some'.mp h with ⟨tb, _, hf⟩
  rw [← hf]
  simp [List.length_take]

theorem selectNotInRandomLimit_length_le {shuffle : List Row → List Row}
    {db : DB} {t pkCol : String} {excl : List Int} {n : Nat} {rs : List Row}
    (h : selectNotInRandomLimit shuffle db t pkCol excl n = some rs) :
    rs.length ≤ n := by
  unfold selectNotInRandomLimit at h
  split at h
  · exact absurd h (by simp)
  · split at h
    · exact absurd h (by simp)
    · simp only [Option.some.injEq] at h
      rw [← h]
      simp [List.length_take]

theorem supplementRows_length_le {shuffle : List Row → List Row} {db : DB}
    {related : String} {matched : List Row} {n : Nat} {ar : List Row}
    (h : supplementRows shuffle db related matched n = some ar) :
    ar.length ≤ n := by
  unfold supplementRows at h
  split at h
  · exact selectRandomLimit_length_le h
  · split at h
    · exact selectRandomLimit_length_le h
    · dsimp only at h
      split at h
      · exact selectRandomLimit_length_le h
      · exact selectNotInRandomLimit_length_le h

theorem chooseRows_length_le {shuffle : List Row → List Row} {db : DB}
    {max_rows : Nat} {related : String} {matched : List Row}
    {rm : List Row × String}
    (h : chooseRows shuffle db max_rows related matched = some rm) :
    rm.1.length ≤ max_rows := by
  unfold chooseRows at h
  split at h
  · cases h
    simp [List.length_take]
  · rename_i h1
    split at h
    · cases hsel : selectRandomLimit shuffle db related max_rows with
      | none => rw [hsel] at h; simp at h
      | some rs =>
        rw [hsel] at h
        simp only [Option.map_some', Option.some.injEq] at h
        subst h
        exact selectRandomLimit_length_le hsel
    · rename_i h2
      split at h
      · rename_i h3
        cases hsup : supplementRows shuffle db related matched (max_rows - matched.length) with
        | none => rw [hsup] at h; simp at h
        | some ar =>
          rw [hsup] at h
          simp only [Option.map_some', Option.some.injEq] at h
          subst h
          have har := supplementRows_length_le hsup
          simp only [List.length_append]
          omega
      · rename_i h3
        cases h
        dsimp only
        omega

/-! ### Dispatch lemma: the possible outcomes of one edge step -/

/-- Every run of `processEdge` either leaves the state unchanged, only
records the edge key, additionally appends the current table to an
already-sampled related table's `related_to`, or (for an unsampled,
non-internal related table whose count query succeeded) stores a fresh
sample chosen by `chooseRows` and marks the table sampled. -/
theorem processEdge_spec (shuffle : List Row → List Row)
    (failFetch : String → String → String → String → Bool)
    (db : DB) (max_rows : Nat) (current : String) (e : Edge)
    (st : ExtractState) :
    processEdge shuffle failFetch db max_rows current e st = st
    ∨ processEdge shuffle failFetch db max_rows current e st =
        { st with seenEdges :=
            edgeKey current e.local_column e.related_table e.remote_column :: st.seenEdges }
    ∨ (procSampled st.processed e.related_table = true ∧
       processEdge shuffle failFetch db max_rows current e st =
        { st with
          seenEdges :=
            edgeKey current e.local_column e.related_table e.remote_column :: st.seenEdges,
          processed := addRelatedTo st.processed e.related_table current })
    ∨ (∃ cnt matched rm,
        countRows db e.related_table = some cnt ∧
        startsWithSqlite e.related_table = false ∧
        procSampled st.processed e.related_table = false ∧
        chooseRows shuffle db max_rows e.related_table matched = some rm ∧
        processEdge shuffle failFetch db max_rows current e st =
          { st with
            seenEdges :=
              edgeKey current e.local_column e.related_table e.remote_column :: st.seenEdges,
            tablesData := dictSet st.tablesData e.related_table
              (mkDoc db e.related_table rm.1 cnt rm.2),
            processed := dictSet st.processed e.related_table
              (ProcInfo.mk true (some rm.2) [current]),
            queue :=
              if e.related_table ∈ st.queue then st.queue
              else st.queue ++ [e.related_table] }) := by
  unfold processEdge
  dsimp only
  split
  · left; rfl
  · split
    · right; left; rfl
    · rename_i hsql
      split
      · right; left; rfl
      · split
        · right; left; rfl
        · split
          · right; left; rfl
          · split
            · right; left; rfl
            · rename_i cnt hcnt
              split
              · rename_i hps
                right; right; left
                exact ⟨hps, rfl⟩
              · rename_i hps
                split
                · right; left; rfl
                · split
                  · right; left; rfl
                  · rename_i matched hsel
                    split
                    · right; left; rfl
                    · rename_i rm hcr
                      right; right; right
                      exact ⟨cnt, matched, rm, hcnt, Bool.eq_false_iff.mpr hsql,
                        Bool.eq_false_iff.mpr hps, hcr, rfl⟩

/-! ### Preservation of per-document predicates through the run -/

theorem processEdge_DocP (P : TableDoc → Prop) (shuffle : List Row → List Row)
    (failFetch : String → String → String → String → Bool)
    (db : DB) (max_rows : Nat) (current : String) (e : Edge) (st : ExtractState)
    (hnew : ∀ related matched cnt rm,
      chooseRows shuffle db max_rows related matched = some rm →
      P (mkDoc db related rm.1 cnt rm.2))
    (hst : ∀ p ∈ st.tablesData, P p.2) :
    ∀ p ∈ (processEdge shuffle failFetch db max_rows current e st).tablesData, P p.2 := by
  rcases processEdge_spec shuffle failFetch db max_rows current e st with
    h | h | ⟨_, h⟩ | ⟨cnt, matched, rm, hcnt, hsql, hps, hcr, h⟩ <;> rw [h]
  · exact hst
  · exact hst
  · exact hst
  · intro p hp
    rcases mem_dictSet hp with ⟨_, hv⟩ | hmem
    · rw [hv]; exact hnew e.related_table matched cnt rm hcr
    · exact hst p hmem

theorem bfsRun_DocP (P : TableDoc → Prop) (shuffle : List Row → List Row)
    (failFetch : String → String → String → String → Bool)
    (db : DB) (rel_map : List (String × List Edge)) (max_rows : Nat)
    (hnew : ∀ related matched cnt rm,
      chooseRows shuffle db max_rows related matched = some rm →
      P (mkDoc db related rm.1 cnt rm.2)) :
    ∀ fuel st, (∀ p ∈ st.tablesData, P p.2) →
      ∀ p ∈ (bfsRun shuffle failFetch db rel_map max_rows fuel st).tablesData, P p.2 := by
  intro fuel
  induction fuel with
  | zero =>
    intro st hst
    unfold bfsRun
    exact hst
  | succ f ih =>
    intro st hst
    unfold bfsRun
    split
    · exact hst
    · rename_i current rest hq
      apply ih
      exact foldl_preserves (fun s => ∀ p ∈ s.tablesData, P p.2) _ _
        (fun s e _ hs => processEdge_DocP P shuffle failFetch db max_rows current e s hnew hs)
        { st with queue := rest } hst

theorem fillTable_DocP (P : TableDoc → Prop) (shuffle : List Row → List Row)
    (db : DB) (max_rows : Nat)
    (hfill : ∀ t tb, dbGet db t = some tb →
      P (TableDoc.mk (get_table_columns db t)
          ((shuffle tb.rows).take (min max_rows tb.rows.length))
          ((shuffle tb.rows).take (min max_rows tb.rows.length)).length
          tb.rows.length
          (decide (min max_rows tb.rows.length < tb.rows.length))
          "random_unrelated")) :
    ∀ st t, (∀ p ∈ st.tablesData, P p.2) →
      ∀ p ∈ (fillTable shuffle db max_rows st t).tablesData, P p.2 := by
  intro st t hst
  unfold fillTable
  split
  · exact hst
  · split
    · exact hst
    · rename_i tb hdb
      dsimp only
      intro p hp
      rcases mem_dictSet hp with ⟨_, hv⟩ | hmem
      · rw [hv]; exact hfill t tb hdb
      · exact hst p hmem

theorem fillUnreached_DocP (P : TableDoc → Prop) (shuffle : List Row → List Row)
    (db : DB) (max_rows : Nat) (all_tables : List String)
    (hfill : ∀ t tb, dbGet db t = some tb →
      P (TableDoc.mk (get_table_columns db t)
          ((shuffle tb.rows).take (min max_rows tb.rows.length))
          ((shuffle tb.rows).take (min max_rows tb.rows.length)).length
          tb.rows.length
          (decide (min max_rows tb.rows.length < tb.rows.length))
          "random_unrelated")) :
    ∀ st, (∀ p ∈ st.tablesData, P p.2) →
      ∀ p ∈ (fillUnreached shuffle db max_rows all_tables st).tablesData, P p.2 := by
  intro st hst
  exact foldl_preserves (fun s => ∀ p ∈ s.tablesData, P p.2) _ _
    (fun s t _ hs => fillTable_DocP P shuffle db max_rows hfill s t hs) _ hst

theorem initState_DocP (P : TableDoc → Prop) (shuffle : List Row → List Row)
    (db : DB) (max_rows : Nat) (start_table : String) (stb : DbTable)
    (hroot : P (TableDoc.mk (get_table_columns db start_table)
        (if max_rows < stb.rows.length then (shuffle stb.rows).take max_rows else stb.rows)
        (if max_rows < stb.rows.length then (shuffle stb.rows).take max_rows else stb.rows).length
        stb.rows.length (decide (max_rows < stb.rows.length)) "initial_random")) :
    ∀ p ∈ (initState shuffle db max_rows start_table stb).tablesData, P p.2 := by
  intro p hp
  unfold initState at hp
  dsimp only at hp
  rw [List.mem_singleton] at hp
  rw [hp]
  exact hroot

theorem finalState_DocP (P : TableDoc → Prop) (shuffle : List Row → List Row)
    (failFetch : String → String → String → String → Bool)
    (db : DB) (relationships : List Rel) (max_rows : Nat)
    (start_table : String) (stb : DbTable)
    (hroot : P (TableDoc.mk (get_table_columns db start_table)
        (if max_rows < stb.rows.length then (shuffle stb.rows).take max_rows else stb.rows)
        (if max_rows < stb.rows.length then (shuffle stb.rows).take max_rows else stb.rows).length
        stb.rows.length (decide (max_rows < stb.rows.length)) "initial_random"))
    (hnew : ∀ related matched cnt rm,
      chooseRows shuffle db max_rows related matched = some rm →
      P (mkDoc db related rm.1 cnt rm.2))
    (hfill : ∀ t tb, dbGet db t = some tb →
      P (TableDoc.mk (get_table_columns db t)
          ((shuffle tb.rows).take (min max_rows tb.rows.length))
          ((shuffle tb.rows).take (min max_rows tb.rows.length)).length
          tb.rows.length
          (decide (min max_rows tb.rows.length < tb.rows.length))
          "random_unrelated")) :
    ∀ p ∈ (finalState shuffle failFetch db relationships max_rows start_table stb).tablesData,
      P p.2 := by
  unfold finalState
  apply fillUnreached_DocP P shuffle db max_rows _ hfill
  apply bfsRun_DocP P shuffle failFetch db _ max_rows hnew
  exact initState_DocP P shuffle db max_rows start_table stb hroot

/-! ### Case dispatch for extract_related_samples -/

theorem extract_eq_some_cases {shuffle : List Row → List Row}
    {failFetch : String → String → String → String → Bool}
    {db : DB} {relationships : List Rel} {max_rows : Nat} {res : ExtractResult}
    (h : extract_related_samples shuffle failFetch db relationships max_rows = some res) :
    (res = ExtractResult.mk [] none ∧ allTables db = []) ∨
    ∃ start_table stb, start_table ∈ allTables db ∧ dbGet db start_table = some stb ∧
      res = extractMain shuffle failFetch db relationships max_rows start_table stb := by
  unfold extract_related_samples at h
  dsimp only at h
  split at h
  · rename_i hstart
    injection h with h
    left
    refine ⟨h.symm, ?_⟩
    revert hstart
    cases build_bidirectional_relationship_map relationships with
    | nil =>
      intro hstart
      dsimp only at hstart
      cases hT : allTables db with
      | nil => rfl
      | cons a l => rw [hT] at hstart; exact absurd hstart (by simp)
    | cons p rest =>
      intro hstart
      exact absurd hstart (by simp [startTableOf])
  · rename_i start hstart
    split at h
    · rename_i hmem
      split at h
      · exact absurd h (by simp)
      · rename_i stb hdb
        injection h with h
        right
        exact ⟨start, stb, hmem, hdb, h.symm⟩
    · exact absurd h (by simp)

/-! ### The relationship map builder, characterised -/

theorem relMapGet_relMapAppend (m : List (String × List Edge)) (s : String)
    (e : Edge) (t : String) :
    relMapGet (relMapAppend m s e) t =
      if s = t then relMapGet m t ++ [e] else relMapGet m t := by
  induction m with
  | nil =>
    by_cases h : s = t <;> simp [relMapAppend, relMapGet, dictGet, h]
  | cons p rest ih =>
    obtain ⟨n, es⟩ := p
    by_cases hp : n = s
    · by_cases ht : n = t
      · have hst : s = t := hp.symm.trans ht
        simp [relMapAppend, hp, relMapGet, dictGet, ht, hst]
      · have hst : ¬s = t := fun hh => ht (hp.trans hh)
        simp [relMapAppend, hp, relMapGet, dictGet, ht, hst]
    · by_cases ht : n = t
      · have hst : ¬s = t := fun hh => hp (ht.trans hh.symm)
        have hts : ¬t = s := fun hh => hst hh.symm
        simp [relMapAppend, hp, relMapGet, dictGet, ht, hst, hts]
      · simp only [relMapAppend, if_neg hp, relMapGet, dictGet, if_neg ht]
        exact ih

theorem buildMap_foldl_char (rels : List Rel) (t : String) :
    ∀ m, relMapGet (rels.foldl (fun m rel =>
        if rel.table ≠ "" ∧ rel.ref_table ≠ "" ∧ rel.from_col ≠ "" ∧ rel.to_col ≠ "" then
          relMapAppend
            (relMapAppend m rel.table
              (Edge.mk rel.ref_table rel.from_col rel.to_col "outgoing"))
            rel.ref_table
            (Edge.mk rel.table rel.to_col rel.from_col "incoming")
        else m) m) t
      = relMapGet m t ++
        (((rels.map edgesOf).flatten.filter (fun p => decide (p.1 = t))).map
          (fun p => p.2)) := by
  induction rels with
  | nil => intro m; simp
  | cons r rs ih =>
    intro m
    simp only [List.foldl_cons, List.map_cons, List.flatten_cons,
      List.filter_append, List.map_append]
    rw [ih]
    have hstep :
        relMapGet (if r.table ≠ "" ∧ r.ref_table ≠ "" ∧ r.from_col ≠ "" ∧ r.to_col ≠ "" then
            relMapAppend
              (relMapAppend m r.table
                (Edge.mk r.ref_table r.from_col r.to_col "outgoing"))
              r.ref_table
              (Edge.mk r.table r.to_col r.from_col "incoming")
          else m) t =
        relMapGet m t ++
          (((edgesOf r).filter (fun p => decide (p.1 = t))).map (fun p => p.2)) := by
      by_cases hv : r.table ≠ "" ∧ r.ref_table ≠ "" ∧ r.from_col ≠ "" ∧ r.to_col ≠ ""
      · rw [if_pos hv, relMapGet_relMapAppend, relMapGet_relMapAppend]
        unfold edgesOf
        rw [if_pos hv]
        by_cases h1 : r.table = t <;> by_cases h2 : r.ref_table = t <;>
          simp [h1, h2]
      · rw [if_neg hv]
        unfold edgesOf
        rw [if_neg hv]
        simp
    rw [hstep, List.append_assoc]

/-- C6: `build_bidirectional_relationship_map` is a pure function whose
output is characterised per table by the per-relationship contribution
`edgesOf`: each relationship with all four fields non-empty contributes
exactly one outgoing edge on its source table (local = from_col,
remote = to_col) and one incoming edge on its target table
(local = to_col, remote = from_col); a relationship with any field empty
contributes nothing. -/
theorem build_map_contributions (relationships : List Rel) (t : String) :
    relMapGet (build_bidirectional_relationship_map relationships) t =
      (((relationships.map edgesOf).flatten.filter
        (fun p => decide (p.1 = t))).map (fun p => p.2)) := by
  have h := buildMap_foldl_char relationships t []
  unfold build_bidirectional_relationship_map
  rw [h]
  simp [relMapGet, dictGet]

/-! ### C8 machinery: the coverage invariant -/

/-- Keys of the sample map are distinct non-internal database tables,
and every table marked sampled owns an entry in the sample map. -/
def KeysInv (db : DB) (st : ExtractState) : Prop :=
  ((st.tablesData.map Prod.fst).Nodup) ∧
  (∀ p ∈ st.tablesData, p.1 ∈ allTables db) ∧
  (∀ t, procSampled st.processed t = true → t ∈ st.tablesData.map Prod.fst)

theorem mem_allTables_of {db : DB} {t : String} {tb : DbTable}
    (hdb : dbGet db t = some tb) (hsql : startsWithSqlite t = false) :
    t ∈ allTables db := by
  unfold allTables
  rw [List.mem_filter]
  refine ⟨dictGet_mem_keys hdb, ?_⟩
  rw [hsql]
  rfl

theorem allTables_sub_keys {db : DB} {t : String} (h : t ∈ allTables db) :
    t ∈ db.map Prod.fst := by
  unfold allTables at h
  exact (List.mem_filter.mp h).1

theorem processEdge_KeysInv (shuffle : List Row → List Row)
    (failFetch : String → String → String → String → Bool)
    (db : DB) (max_rows : Nat) (current : String) (e : Edge)
    (st : ExtractState) (h : KeysInv db st) :
    KeysInv db (processEdge shuffle failFetch db max_rows current e st) := by
  obtain ⟨h1, h2, h3⟩ := h
  rcases processEdge_spec shuffle failFetch db max_rows current e st with
    hc | hc | ⟨hs, hc⟩ | ⟨cnt, matched, rm, hcnt, hsql, hps, hcr, hc⟩ <;> rw [hc]
  · exact ⟨h1, h2, h3⟩
  · exact ⟨h1, h2, h3⟩
  · refine ⟨h1, h2, ?_⟩
    intro t ht
    have ht' : procSampled (addRelatedTo st.processed e.related_table current) t = true := ht
    rw [procSampled_addRelatedTo] at ht'
    exact h3 t ht'
  · unfold countRows at hcnt
    obtain ⟨tb, htb, _⟩ := Option.map_eq_some'.mp hcnt
    refine ⟨nodup_keys_dictSet _ h1, ?_, ?_⟩
    · intro p hp
      rcases mem_dictSet hp with ⟨hk, _⟩ | hmem
      · rw [hk]; exact mem_allTables_of htb hsql
      · exact h2 p hmem
    · intro t ht
      by_cases hteq : t = e.related_table
      · subst hteq
        exact self_mem_keys_dictSet _ _ _
      · have ht' : procSampled st.processed t = true := by
          unfold procSampled at ht ⊢
          rwa [dictGet_dictSet_ne _ _ hteq] at ht
        exact mem_keys_dictSet_of_mem _ (h3 t ht')

theorem bfsRun_KeysInv (shuffle : List Row → List Row)
    (failFetch : String → String → String → String → Bool)
    (db : DB) (rel_map : List (String × List Edge)) (max_rows : Nat) :
    ∀ fuel st, KeysInv db st →
      KeysInv db (bfsRun shuffle failFetch db rel_map max_rows fuel st) := by
  intro fuel
  induction fuel with
  | zero => intro st h; unfold bfsRun; exact h
  | succ f ih =>
    intro st h
    unfold bfsRun
    split
    · exact h
    · rename_i current rest hq
      apply ih
      refine foldl_preserves (KeysInv db) _ _
        (fun s e _ hs => processEdge_KeysInv shuffle failFetch db max_rows current e s hs)
        { st with queue := rest } ?_
      exact h

theorem fillTable_KeysInv (shuffle : List Row → List Row) (db : DB)
    (max_rows : Nat) (st : ExtractState) (u : String)
    (hu : u ∈ allTables db) (h : KeysInv db st) :
    KeysInv db (fillTable shuffle db max_rows st u) := by
  obtain ⟨h1, h2, h3⟩ := h
  unfold fillTable
  split
  · exact ⟨h1, h2, h3⟩
  · split
    · exact ⟨h1, h2, h3⟩
    · rename_i tb hdb
      dsimp only
      refine ⟨nodup_keys_dictSet _ h1, ?_, ?_⟩
      · intro p hp
        rcases mem_dictSet hp with ⟨hk, _⟩ | hmem
        · rw [hk]; exact hu
        · exact h2 p hmem
      · intro t ht
        by_cases hteq : t = u
        · subst hteq
          exact self_mem_keys_dictSet _ _ _
        · have ht' : procSampled st.processed t = true := by
            unfold procSampled at ht ⊢
            rwa [dictGet_dictSet_ne _ _ hteq] at ht
          exact mem_keys_dictSet_of_mem _ (h3 t ht')

theorem fillUnreached_KeysInv (shuffle : List Row → List Row) (db : DB)
    (max_rows : Nat) (all_tables : List String)
    (hsub : ∀ u ∈ all_tables, u ∈ allTables db) (st : ExtractState)
    (h : KeysInv db st) :
    KeysInv db (fillUnreached shuffle db max_rows all_tables st) :=
  foldl_preserves (KeysInv db) _ all_tables
    (fun s u hu hs => fillTable_KeysInv shuffle db max_rows s u (hsub u hu) hs)
    st h

theorem procSampled_init_false (l : List String) (t : String) :
    procSampled (l.map (fun u => (u, ProcInfo.mk false none []))) t = false := by
  unfold procSampled
  cases hg : dictGet (l.map fun u => (u, ProcInfo.mk false none [])) t with
  | none => rfl
  | some v =>
    have hmem := dictGet_mem_pair hg
    rw [List.mem_map] at hmem
    obtain ⟨u, _, huv⟩ := hmem
    simp only [Prod.mk.injEq] at huv
    rw [← huv.2]
    rfl

theorem initState_KeysInv (shuffle : List Row → List Row) (db : DB)
    (max_rows : Nat) (start_table : String) (stb : DbTable)
    (hmem : start_table ∈ allTables db) :
    KeysInv db (initState shuffle db max_rows start_table stb) := by
  unfold initState
  dsimp only
  refine ⟨List.nodup_singleton _, ?_, ?_⟩
  · intro p hp
    rw [List.mem_singleton] at hp
    rw [hp]
    exact hmem
  · intro t ht
    by_cases hteq : t = start_table
    · subst hteq; exact List.mem_singleton.mpr rfl
    · exact absurd ht (by
        unfold procSampled
        rw [dictGet_dictSet_ne _ _ hteq, show dictGet ((allTables db).map
          (fun u => (u, ProcInfo.mk false none []))) t =
            dictGet ((allTables db).map (fun u => (u, ProcInfo.mk false none []))) t from rfl]
        have := procSampled_init_false (allTables db) t
        unfold procSampled at this
        rw [this]
        simp)

theorem filterMap_export_names (l : List (String × TableDoc))
    (hl : ∀ p ∈ l, p.1 ≠ "__meta__") :
    (l.filterMap (fun p =>
      if p.1 = "__meta__" then none
      else some (p.1 ++ ".json", encodeDoc p.2))).map Prod.fst =
    (l.map Prod.fst).map (fun n => n ++ ".json") := by
  induction l with
  | nil => rfl
  | cons p rest ih =>
    have hp := hl p (List.mem_cons_self _ _)
    simp only [List.filterMap_cons, if_neg hp, List.map_cons]
    rw [ih (fun q hq => hl q (List.mem_cons_of_mem _ hq))]

/-! ### Concrete databases used by witnesses and counterexamples -/

/-- Failure oracle that never fails. -/
def ff0 : String → String → String → String → Bool := fun _ _ _ _ => false

/-- Failure oracle under which every related-row fetch raises. -/
def ffAll : String → String → String → String → Bool := fun _ _ _ _ => true

/-- Table `B(a)`, one row, with a foreign key `B.a → A.id`. -/
def tbB : DbTable := DbTable.mk [("a", true)] [[some 1]] [("A", "a", "id")]

/-- Table `A(id)`, one row. -/
def tbA : DbTable := DbTable.mk [("id", true)] [[some 1]] []

/-- A two-table database with a single foreign key `B.a → A.id`. -/
def dbBA : DB := [("B", tbB), ("A", tbA)]

def relsBA : List Rel := get_foreign_key_relationships dbBA

/-- The result of running the sampler on `dbBA` with `max_rows = 1`. -/
def resBA : ExtractResult :=
  (extract_related_samples id ff0 dbBA relsBA 1).getD (ExtractResult.mk [] none)

/-- Table `t(x)` with two rows and no foreign keys. -/
def tbT : DbTable := DbTable.mk [("x", false)] [[some 5], [some 6]] []

/-- A single-table database with no foreign keys at all. -/
def dbNoFk : DB := [("t", tbT)]

/-! ### C1: row-count cap -/

/-- C1: for every run of the referential sampler and every table in the
final sample map — any start table, any relationship graph, any branch
(initial_random, related_exact, related_random_sample,
related_with_random_supplement, fallback_random, random_unrelated) —
the number of rows stored in that table's exported sample (both the
`data` list and the `row_count` field) is at most `max_rows`. -/
theorem sampler_row_cap (shuffle : List Row → List Row)
    (failFetch : String → String → String → String → Bool)
    (db : DB) (relationships : List Rel) (max_rows : Nat) (res : ExtractResult)
    (hres : extract_related_samples shuffle failFetch db relationships max_rows = some res) :
    ∀ p ∈ res.tables, p.2.data.length ≤ max_rows ∧ p.2.row_count ≤ max_rows := by
  rcases extract_eq_some_cases hres with ⟨h, _⟩ | ⟨start, stb, hmem, hdb, h⟩
  · rw [h]; intro p hp; exact absurd hp (List.not_mem_nil p)
  · rw [h]
    apply finalState_DocP (fun d => d.data.length ≤ max_rows ∧ d.row_count ≤ max_rows)
    · constructor <;>
        (dsimp only; split <;> (try simp only [List.length_take]) <;> omega)
    · intro related matched cnt rm hcr
      have hb := chooseRows_length_le hcr
      exact ⟨hb, hb⟩
    · intro t tb hdb2
      constructor <;> (dsimp only; simp only [List.length_take]; omega)

/-- Witness for C1 at the concrete database `dbBA` with `max_rows = 1`. -/
theorem sampler_row_cap_witness :
    (TableDoc.mk ["a"] [[(some 1 : Val)]] 1 1 false "initial_random").data.length ≤ 1 ∧
    (TableDoc.mk ["a"] [[(some 1 : Val)]] 1 1 false "initial_random").row_count ≤ 1 :=
  sampler_row_cap id ff0 dbBA relsBA 1 resBA (by decide)
    ("B", TableDoc.mk ["a"] [[(some 1 : Val)]] 1 1 false "initial_random") (by decide)

/-! ### C10: derived fields are coherent -/

/-- C10: for every per-table document produced by
extract_related_samples (root, related-edge and unreached-table branches
alike), `row_count` equals the length of `data`, and the `sampled`
boolean equals `total_rows > row_count`. -/
theorem doc_fields_coherent (shuffle : List Row → List Row)
    (failFetch : String → String → String → String → Bool)
    (db : DB) (relationships : List Rel) (max_rows : Nat) (res : ExtractResult)
    (hlen : ∀ xs, (shuffle xs).length = xs.length)
    (hres : extract_related_samples shuffle failFetch db relationships max_rows = some res) :
    ∀ p ∈ res.tables, p.2.row_count = p.2.data.length ∧
      p.2.sampled = decide (p.2.row_count < p.2.total_rows) := by
  rcases extract_eq_some_cases hres with ⟨h, _⟩ | ⟨start, stb, hmem, hdb, h⟩
  · rw [h]; intro p hp; exact absurd hp (List.not_mem_nil p)
  · rw [h]
    apply finalState_DocP
      (fun d => d.row_count = d.data.length ∧ d.sampled = decide (d.row_count < d.total_rows))
    · refine ⟨rfl, ?_⟩
      dsimp only
      split
      · rename_i hlt
        have hl : (List.take max_rows (shuffle stb.rows)).length = max_rows := by
          rw [List.length_take, hlen]; omega
        rw [decide_eq_decide, hl]
      · rw [decide_eq_decide]
        omega
    · intro related matched cnt rm hcr
      exact ⟨rfl, rfl⟩
    · intro t tb hdb2
      refine ⟨rfl, ?_⟩
      dsimp only
      rw [decide_eq_decide, List.length_take, hlen]
      omega

/-! ### C5: sampled tables are never re-sampled -/

theorem processEdge_frozen (shuffle : List Row → List Row)
    (failFetch : String → String → String → String → Bool)
    (db : DB) (max_rows : Nat) (current : String) (e : Edge)
    (st : ExtractState) (t : String)
    (h : procSampled st.processed t = true) :
    procSampled (processEdge shuffle failFetch db max_rows current e st).processed t = true ∧
    dictGet (processEdge shuffle failFetch db max_rows current e st).tablesData t =
      dictGet st.tablesData t := by
  rcases processEdge_spec shuffle failFetch db max_rows current e st with
    hc | hc | ⟨hs, hc⟩ | ⟨cnt, matched, rm, hcnt, hsql, hps, hcr, hc⟩ <;> rw [hc]
  · exact ⟨h, rfl⟩
  · exact ⟨h, rfl⟩
  · refine ⟨?_, rfl⟩
    show procSampled (addRelatedTo st.processed e.related_table current) t = true
    rw [procSampled_addRelatedTo]
    exact h
  · have hne : t ≠ e.related_table := by
      intro hh
      rw [hh] at h
      rw [h] at hps
      cases hps
    constructor
    · show procSampled (dictSet st.processed e.related_table
        (ProcInfo.mk true (some rm.2) [current])) t = true
      unfold procSampled
      rw [dictGet_dictSet_ne _ _ hne]
      exact h
    · show dictGet (dictSet st.tablesData e.related_table
        (mkDoc db e.related_table rm.1 cnt rm.2)) t = dictGet st.tablesData t
      rw [dictGet_dictSet_ne _ _ hne]

theorem bfsRun_frozen (shuffle : List Row → List Row)
    (failFetch : String → String → String → String → Bool)
    (db : DB) (rel_map : List (String × List Edge)) (max_rows : Nat) :
    ∀ fuel st t, procSampled st.processed t = true →
      procSampled (bfsRun shuffle failFetch db rel_map max_rows fuel st).processed t = true ∧
      dictGet (bfsRun shuffle failFetch db rel_map max_rows fuel st).tablesData t =
        dictGet st.tablesData t := by
  intro fuel
  induction fuel with
  | zero =>
    intro st t h
    unfold bfsRun
    exact ⟨h, rfl⟩
  | succ f ih =>
    intro st t h
    unfold bfsRun
    split
    · exact ⟨h, rfl⟩
    · rename_i current rest hq
      have hfold := foldl_preserves
        (fun s => procSampled s.processed t = true ∧
          dictGet s.tablesData t = dictGet st.tablesData t)
        (fun s e => processEdge shuffle failFetch db max_rows current e s)
        (relMapGet rel_map current)
        (fun s e _ hs => by
          obtain ⟨hs1, hs2⟩ := hs
          obtain ⟨h1, h2⟩ := processEdge_frozen shuffle failFetch db max_rows current e s t hs1
          exact ⟨h1, h2.trans hs2⟩)
        { st with queue := rest } ⟨h, rfl⟩
      obtain ⟨hf1, hf2⟩ := hfold
      obtain ⟨hi1, hi2⟩ := ih _ t hf1
      exact ⟨hi1, hi2.trans hf2⟩

theorem fillTable_frozen (shuffle : List Row → List Row) (db : DB)
    (max_rows : Nat) (st : ExtractState) (u t : String)
    (h : procSampled st.processed t = true) :
    procSampled (fillTable shuffle db max_rows st u).processed t = true ∧
    dictGet (fillTable shuffle db max_rows st u).tablesData t =
      dictGet st.tablesData t := by
  unfold fillTable
  split
  · exact ⟨h, rfl⟩
  · rename_i hu
    split
    · exact ⟨h, rfl⟩
    · rename_i tb hdb
      have hne : t ≠ u := fun hh => hu (hh ▸ h)
      dsimp only
      constructor
      · unfold procSampled
        rw [dictGet_dictSet_ne _ _ hne]
        exact h
      · rw [dictGet_dictSet_ne _ _ hne]

theorem fillUnreached_frozen (shuffle : List Row → List Row) (db : DB)
    (max_rows : Nat) (all_tables : List String) (st : ExtractState) (t : String)
    (h : procSampled st.processed t = true) :
    procSampled (fillUnreached shuffle db max_rows all_tables st).processed t = true ∧
    dictGet (fillUnreached shuffle db max_rows all_tables st).tablesData t =
      dictGet st.tablesData t := by
  refine foldl_preserves
    (fun s => procSampled s.processed t = true ∧
      dictGet s.tablesData t = dictGet st.tablesData t)
    (fillTable shuffle db max_rows) all_tables ?_ st ⟨h, rfl⟩
  intro s u _ hs
  obtain ⟨hs1, hs2⟩ := hs
  obtain ⟨h1, h2⟩ := fillTable_frozen shuffle db max_rows s u t hs1
  exact ⟨h1, h2.trans hs2⟩

theorem fillUnreached_covers (shuffle : List Row → List Row) (db : DB)
    (max_rows : Nat) :
    ∀ (l : List String) (st : ExtractState),
      (∀ u ∈ l, (dbGet db u).isSome = true) →
      ∀ t ∈ l, procSampled (fillUnreached shuffle db max_rows l st).processed t = true := by
  intro l
  induction l with
  | nil => intro st _ t ht; exact absurd ht (List.not_mem_nil t)
  | cons u rest ih =>
    intro st hl t ht
    have hstep : fillUnreached shuffle db max_rows (u :: rest) st =
        fillUnreached shuffle db max_rows rest (fillTable shuffle db max_rows st u) := rfl
    rw [hstep]
    rcases List.mem_cons.mp ht with h | h
    · subst h
      have h1 : procSampled (fillTable shuffle db max_rows st t).processed t = true := by
        unfold fillTable
        split
        · rename_i hcond; exact hcond
        · split
          · rename_i hdb
            have := hl t (List.mem_cons_self _ _)
            rw [hdb] at this
            exact absurd this (by simp)
          · dsimp only
            unfold procSampled
            rw [dictGet_dictSet_self]
            rfl
      exact (fillUnreached_frozen shuffle db max_rows rest _ t h1).1
    · exact ih _ (fun v hv => hl v (List.mem_cons_of_mem _ hv)) t h

theorem processEdge_already_sampled (shuffle : List Row → List Row)
    (failFetch : String → String → String → String → Bool)
    (db : DB) (max_rows : Nat) (current : String) (e : Edge)
    (st : ExtractState) (d : TableDoc) (idx : Nat) (info : ProcInfo)
    (hkey : edgeKey current e.local_column e.related_table e.remote_column ∉ st.seenEdges)
    (hsql : startsWithSqlite e.related_table = false)
    (hcur : dictGet st.tablesData current = some d)
    (hidx : tiColIdx db current e.local_column = some idx)
    (hjv : joinVals d.data idx ≠ [])
    (hcnt : (countRows db e.related_table).isSome = true)
    (hinfo : dictGet st.processed e.related_table = some info)
    (hsampled : info.sampled = true) :
    processEdge shuffle failFetch db max_rows current e st =
      { st with
        seenEdges :=
          edgeKey current e.local_column e.related_table e.remote_column :: st.seenEdges,
        processed := addRelatedTo st.processed e.related_table current } ∧
    dictGet (addRelatedTo st.processed e.related_table current) e.related_table =
      some (ProcInfo.mk info.sampled info.method (info.related_to ++ [current])) := by
  constructor
  · have hsql' : ¬(startsWithSqlite e.related_table = true) := by simp [hsql]
    have hps : procSampled st.processed e.related_table = true := by
      unfold procSampled
      rw [hinfo]
      exact hsampled
    obtain ⟨cnt, hcnt'⟩ := Option.isSome_iff_exists.mp hcnt
    unfold processEdge
    rw [if_neg hkey]
    dsimp only
    rw [if_neg hsql', hcur, hidx]
    dsimp only
    rw [if_neg hjv, hcnt']
    dsimp only
    rw [if_pos hps]
  · rw [dictGet_addRelatedTo, if_pos rfl, hinfo]
    rfl

/-- C5: for every table the `processed[table].sampled` flag transitions
from false to true at most once per run and the stored sample is never
replaced: once a table is sampled, any further BFS steps and the tail
loop leave its entry in the sample map untouched; when a sampled table
is reached again over another foreign-key edge, the traversal only
appends the current table's name to its `related_to` list. -/
theorem idempotent_visitation (shuffle : List Row → List Row)
    (failFetch : String → String → String → String → Bool)
    (db : DB) (rel_map : List (String × List Edge)) (max_rows : Nat) :
    (∀ fuel st t, procSampled st.processed t = true →
      procSampled (bfsRun shuffle failFetch db rel_map max_rows fuel st).processed t = true ∧
      dictGet (bfsRun shuffle failFetch db rel_map max_rows fuel st).tablesData t =
        dictGet st.tablesData t) ∧
    (∀ all_tables st t, procSampled st.processed t = true →
      procSampled (fillUnreached shuffle db max_rows all_tables st).processed t = true ∧
      dictGet (fillUnreached shuffle db max_rows all_tables st).tablesData t =
        dictGet st.tablesData t) ∧
    (∀ current e st d idx info,
      edgeKey current e.local_column e.related_table e.remote_column ∉ st.seenEdges →
      startsWithSqlite e.related_table = false →
      dictGet st.tablesData current = some d →
      tiColIdx db current e.local_column = some idx →
      joinVals d.data idx ≠ [] →
      (countRows db e.related_table).isSome = true →
      dictGet st.processed e.related_table = some info →
      info.sampled = true →
      processEdge shuffle failFetch db max_rows current e st =
        { st with
          seenEdges :=
            edgeKey current e.local_column e.related_table e.remote_column :: st.seenEdges,
          processed := addRelatedTo st.processed e.related_table current } ∧
      dictGet (addRelatedTo st.processed e.related_table current) e.related_table =
        some (ProcInfo.mk info.sampled info.method (info.related_to ++ [current]))) :=
  ⟨bfsRun_frozen shuffle failFetch db rel_map max_rows,
   fun all_tables st t h => fillUnreached_frozen shuffle db max_rows all_tables st t h,
   fun current e st d idx info h1 h2 h3 h4 h5 h6 h7 h8 =>
     processEdge_already_sampled shuffle failFetch db max_rows current e st d idx info
       h1 h2 h3 h4 h5 h6 h7 h8⟩

/-- Witness for C5: at the concrete database `dbBA`, the sampled start
table B is untouched by a BFS run, and the reverse edge from A appends
"A" to B's `related_to`. -/
theorem idempotent_visitation_witness :
    (procSampled ((bfsRun id ff0 dbBA (build_bidirectional_relationship_map relsBA)
        1 3 (initState id dbBA 1 "B" tbB)).processed) "B" = true ∧
      dictGet ((bfsRun id ff0 dbBA (build_bidirectional_relationship_map relsBA)
        1 3 (initState id dbBA 1 "B" tbB)).tablesData) "B" =
        dictGet (initState id dbBA 1 "B" tbB).tablesData "B") :=
  (idempotent_visitation id ff0 dbBA
    (build_bidirectional_relationship_map relsBA) 1).1
    3 (initState id dbBA 1 "B" tbB) "B" (by decide)

/-! ### C2: edges with at least max_rows matching rows -/

/-- Counterexample to C2 as stated: at the boundary where the match
count equals `max_rows` exactly (database `dbBA`, `max_rows = 1`, table
A reached from B over the single foreign key, one matching row), the
stored sample has method `related_exact`, not `related_random_sample`. -/
theorem related_boundary_cex :
    ((extract_related_samples id ff0 dbBA relsBA 1).map
      (fun r => (dictGet r.tables "A").map (fun d => d.sampling_method))) =
      some (some "related_exact") ∧
    (selectWhereIn dbBA "A" "id" [1]).map List.length = some 1 ∧
    "related_exact" ≠ "related_random_sample" :=
  ⟨by decide, by decide, by decide⟩

/-- C2 amended: for every traversal step where a not-yet-sampled table
is reached over a foreign-key edge with a nonempty join-value set, with
`max_rows` positive and at least `max_rows` matching rows, the stored
sample has exactly `max_rows` rows; the method is
`related_random_sample` when the match count strictly exceeds
`max_rows`, and `related_exact` when it equals `max_rows`. -/
theorem related_at_least_max_rows (shuffle : List Row → List Row)
    (failFetch : String → String → String → String → Bool)
    (db : DB) (max_rows : Nat) (current : String) (e : Edge)
    (st : ExtractState) (d : TableDoc) (idx cnt : Nat) (matched : List Row)
    (hlen : ∀ xs, (shuffle xs).length = xs.length)
    (hkey : edgeKey current e.local_column e.related_table e.remote_column ∉ st.seenEdges)
    (hsql : startsWithSqlite e.related_table = false)
    (hcur : dictGet st.tablesData current = some d)
    (hidx : tiColIdx db current e.local_column = some idx)
    (hjv : joinVals d.data idx ≠ [])
    (hcnt : countRows db e.related_table = some cnt)
    (hsamp : procSampled st.processed e.related_table = false)
    (hfail : failFetch current e.local_column e.related_table e.remote_column = false)
    (hsel : selectWhereIn db e.related_table e.remote_column (joinVals d.data idx) = some matched)
    (hpos : 0 < max_rows)
    (hm : max_rows ≤ matched.length) :
    (dictGet (processEdge shuffle failFetch db max_rows current e st).tablesData
        e.related_table).map (fun doc => doc.data.length) = some max_rows ∧
    (dictGet (processEdge shuffle failFetch db max_rows current e st).tablesData
        e.related_table).map (fun doc => doc.row_count) = some max_rows ∧
    (dictGet (processEdge shuffle failFetch db max_rows current e st).tablesData
        e.related_table).map (fun doc => doc.sampling_method) =
      some (if max_rows < matched.length then "related_random_sample"
            else "related_exact") := by
  have hsql' : ¬(startsWithSqlite e.related_table = true) := by simp [hsql]
  have hsamp' : ¬(procSampled st.processed e.related_table = true) := by simp [hsamp]
  have hfail' : ¬(failFetch current e.local_column e.related_table e.remote_column = true) := by
    simp [hfail]
  unfold processEdge
  rw [if_neg hkey]
  dsimp only
  rw [if_neg hsql', hcur, hidx]
  dsimp only
  rw [if_neg hjv, hcnt]
  dsimp only
  rw [if_neg hsamp', if_neg hfail', hsel]
  dsimp only
  by_cases hlt : max_rows < matched.length
  · have hcr : chooseRows shuffle db max_rows e.related_table matched =
        some ((shuffle matched).take max_rows, "related_random_sample") := by
      unfold chooseRows
      rw [if_pos hlt]
    rw [hcr]
    dsimp only
    rw [dictGet_dictSet_self]
    have hl : (List.take max_rows (shuffle matched)).length = max_rows := by
      rw [List.length_take, hlen]
      omega
    refine ⟨?_, ?_, ?_⟩
    · simp only [Option.map_some']
      rw [show (mkDoc db e.related_table (List.take max_rows (shuffle matched)) cnt
        "related_random_sample").data = List.take max_rows (shuffle matched) from rfl, hl]
    · simp only [Option.map_some']
      rw [show (mkDoc db e.related_table (List.take max_rows (shuffle matched)) cnt
        "related_random_sample").row_count =
          (List.take max_rows (shuffle matched)).length from rfl, hl]
    · simp only [Option.map_some']
      rw [if_pos hlt]
      rfl
  · have heq : matched.length = max_rows := by omega
    have hcr : chooseRows shuffle db max_rows e.related_table matched =
        some (matched, "related_exact") := by
      unfold chooseRows
      rw [if_neg hlt, if_neg (by omega : ¬matched.length = 0),
        if_neg (by omega : ¬matched.length < max_rows)]
    rw [hcr]
    dsimp only
    rw [dictGet_dictSet_self]
    refine ⟨?_, ?_, ?_⟩
    · simp only [Option.map_some']
      rw [show (mkDoc db e.related_table matched cnt "related_exact").data =
        matched from rfl, heq]
    · simp only [Option.map_some']
      rw [show (mkDoc db e.related_table matched cnt "related_exact").row_count =
        matched.length from rfl, heq]
    · simp only [Option.map_some']
      rw [if_neg hlt]
      rfl

/-- Witness for the amended C2 at database `dbBA`, `max_rows = 1`,
edge B.a → A.id, one matching row. -/
theorem related_at_least_max_rows_witness :
    (dictGet (processEdge id ff0 dbBA 1 "B" (Edge.mk "A" "a" "id" "outgoing")
        (initState id dbBA 1 "B" tbB)).tablesData "A").map
      (fun doc => doc.data.length) = some 1 ∧
    (dictGet (processEdge id ff0 dbBA 1 "B" (Edge.mk "A" "a" "id" "outgoing")
        (initState id dbBA 1 "B" tbB)).tablesData "A").map
      (fun doc => doc.row_count) = some 1 ∧
    (dictGet (processEdge id ff0 dbBA 1 "B" (Edge.mk "A" "a" "id" "outgoing")
        (initState id dbBA 1 "B" tbB)).tablesData "A").map
      (fun doc => doc.sampling_method) =
      some (if 1 < [[(some 1 : Val)]].length then "related_random_sample"
            else "related_exact") :=
  related_at_least_max_rows id ff0 dbBA 1 "B" (Edge.mk "A" "a" "id" "outgoing")
    (initState id dbBA 1 "B" tbB)
    (TableDoc.mk ["a"] [[some 1]] 1 1 false "initial_random") 0 1 [[some 1]]
    (fun _ => rfl) (by decide) (by decide) (by decide) (by decide) (by decide)
    (by decide) (by decide) (by decide) (by decide) (by decide) (by decide)

/-! ### C3: the seen-edges set and the two directions of one FK -/

/-- Counterexample to C3: on `dbBA` both directional edge keys of the
single physical foreign key enter `seen_edges` and both directions are
processed — the reverse edge is not skipped; it appends "A" to B's
`related_to`.  The two directional keys are distinct strings, so the
seen-edges set cannot identify one with the other. -/
theorem seen_edges_both_directions_cex :
    (bfsRun id ff0 dbBA (build_bidirectional_relationship_map relsBA) 1 3
      (initState id dbBA 1 "B" tbB)).seenEdges = ["A:id:B:a", "B:a:A:id"] ∧
    (dictGet (bfsRun id ff0 dbBA (build_bidirectional_relationship_map relsBA) 1 3
      (initState id dbBA 1 "B" tbB)).processed "B").map (fun i => i.related_to) =
      some ["A"] ∧
    edgeKey "B" "a" "A" "id" ≠ edgeKey "A" "id" "B" "a" :=
  ⟨by decide, by decide, by decide⟩

/-- C3 amended: the seen-edges set deduplicates exact directional edge
keys only — an edge whose key is already in `seen_edges` is skipped with
the state unchanged; the opposite direction of the same physical foreign
key carries a different key in general (as the counterexample run shows)
and is processed separately. -/
theorem seen_edges_dedup (shuffle : List Row → List Row)
    (failFetch : String → String → String → String → Bool)
    (db : DB) (max_rows : Nat) (current : String) (e : Edge)
    (st : ExtractState)
    (h : edgeKey current e.local_column e.related_table e.remote_column ∈ st.seenEdges) :
    processEdge shuffle failFetch db max_rows current e st = st := by
  unfold processEdge
  rw [if_pos h]

/-- Witness for the amended C3: a second processing of the already-seen
forward edge of `dbBA` leaves the state unchanged. -/
theorem seen_edges_dedup_witness :
    processEdge id ff0 dbBA 1 "B" (Edge.mk "A" "a" "id" "outgoing")
      { tablesData := [], processed := [], queue := [],
        seenEdges := ["B:a:A:id"] } =
      { tablesData := [], processed := [], queue := [],
        seenEdges := ["B:a:A:id"] } :=
  seen_edges_dedup id ff0 dbBA 1 "B" (Edge.mk "A" "a" "id" "outgoing")
    { tablesData := [], processed := [], queue := [], seenEdges := ["B:a:A:id"] }
    (by decide)

/-! ### C9: a failing related-row fetch -/

/-- Counterexample to C9: on `dbBA` with every related-row fetch
failing, table A is not given a `fallback_random` sample by the failing
edge; it is left unsampled by the BFS and receives `random_unrelated`
from the tail loop. -/
theorem edge_failure_cex :
    ((extract_related_samples id ffAll dbBA relsBA 1).map
      (fun r => (dictGet r.tables "A").map (fun d => d.sampling_method))) =
      some (some "random_unrelated") ∧
    "random_unrelated" ≠ "fallback_random" :=
  ⟨by decide, by decide⟩

/-- C9 amended: a failing related-row fetch causes the edge to be
skipped entirely — no sample is stored through it, only its edge key is
recorded — and a table still unsampled when the tail loop reaches it
receives an independent `random_unrelated` sample there. -/
theorem edge_fetch_failure (shuffle : List Row → List Row)
    (failFetch : String → String → String → String → Bool)
    (db : DB) (max_rows : Nat) (current : String) (e : Edge)
    (st : ExtractState) (d : TableDoc) (idx cnt : Nat)
    (hkey : edgeKey current e.local_column e.related_table e.remote_column ∉ st.seenEdges)
    (hsql : startsWithSqlite e.related_table = false)
    (hcur : dictGet st.tablesData current = some d)
    (hidx : tiColIdx db current e.local_column = some idx)
    (hjv : joinVals d.data idx ≠ [])
    (hcnt : countRows db e.related_table = some cnt)
    (hsamp : procSampled st.processed e.related_table = false)
    (hfail : failFetch current e.local_column e.related_table e.remote_column = true) :
    processEdge shuffle failFetch db max_rows current e st =
      { st with seenEdges :=
          edgeKey current e.local_column e.related_table e.remote_column :: st.seenEdges } ∧
    (∀ st2 t tb, procSampled st2.processed t = false → dbGet db t = some tb →
      (dictGet (fillTable shuffle db max_rows st2 t).tablesData t).map
        (fun doc => (doc.sampling_method, doc.data.length)) =
        some ("random_unrelated",
          ((shuffle tb.rows).take (min max_rows tb.rows.length)).length)) := by
  constructor
  · have hsql' : ¬(startsWithSqlite e.related_table = true) := by simp [hsql]
    have hsamp' : ¬(procSampled st.processed e.related_table = true) := by simp [hsamp]
    unfold processEdge
    rw [if_neg hkey]
    dsimp only
    rw [if_neg hsql', hcur, hidx]
    dsimp only
    rw [if_neg hjv, hcnt]
    dsimp only
    rw [if_neg hsamp', if_pos hfail]
  · intro st2 t tb hs hdb
    have hs' : ¬(procSampled st2.processed t = true) := by simp [hs]
    unfold fillTable
    rw [if_neg hs', hdb]
    dsimp only
    rw [dictGet_dictSet_self]
    rfl

/-- Witness for the amended C9 at `dbBA` with the always-failing fetch
oracle. -/
theorem edge_fetch_failure_witness :
    processEdge id ffAll dbBA 1 "B" (Edge.mk "A" "a" "id" "outgoing")
      (initState id dbBA 1 "B" tbB) =
      { (initState id dbBA 1 "B" tbB) with seenEdges :=
          (edgeKey "B" "a" "A" "id" :: (initState id dbBA 1 "B" tbB).seenEdges) } ∧
    (dictGet (fillTable id dbBA 1 (initState id dbBA 1 "B" tbB) "A").tablesData "A").map
      (fun doc => (doc.sampling_method, doc.data.length)) =
      some ("random_unrelated", ((id tbA.rows).take (min 1 tbA.rows.length)).length) := by
  obtain ⟨h1, h2⟩ := edge_fetch_failure id ffAll dbBA 1 "B"
    (Edge.mk "A" "a" "id" "outgoing") (initState id dbBA 1 "B" tbB)
    (TableDoc.mk ["a"] [[some 1]] 1 1 false "initial_random") 0 1
    (by decide) (by decide) (by decide) (by decide) (by decide) (by decide)
    (by decide) (by decide)
  exact ⟨h1, h2 (initState id dbBA 1 "B" tbB) "A" tbA (by decide) (by decide)⟩

/-! ### C8: coverage -/

/-- C8: in every run in which no per-table query fails (the model's
queries on the database's own tables always succeed, and a failing
related-row fetch only skips its edge), every non-engine-internal table
of the source database appears exactly once in the final sample map —
tables unreached by the BFS are filled in by the tail loop — and the
exporter emits exactly one file per table of the sample map plus
`metadata.json`. -/
theorem coverage_invariant (shuffle : List Row → List Row)
    (failFetch : String → String → String → String → Bool)
    (db : DB) (max_rows : Nat) (res : ExtractResult)
    (hres : extract_related_samples shuffle failFetch db
      (get_foreign_key_relationships db) max_rows = some res)
    (hmeta : "__meta__" ∉ allTables db)
    (hfk : get_foreign_key_relationships db ≠ []) :
    (res.tables.map Prod.fst).Nodup ∧
    (∀ t, t ∈ res.tables.map Prod.fst ↔ t ∈ allTables db) ∧
    (sqlite_to_connected_json_files shuffle failFetch db max_rows).map Prod.fst =
      (res.tables.map Prod.fst).map (fun n => n ++ ".json") ++ ["metadata.json"] := by
  have hexp : ∀ hnm : ∀ p ∈ res.tables, p.1 ≠ "__meta__",
      (sqlite_to_connected_json_files shuffle failFetch db max_rows).map Prod.fst =
        (res.tables.map Prod.fst).map (fun n => n ++ ".json") ++ ["metadata.json"] := by
    intro hnm
    unfold sqlite_to_connected_json_files
    dsimp only
    rw [if_neg hfk, hres]
    dsimp only
    rw [List.map_append, filterMap_export_names res.tables hnm]
    rfl
  rcases extract_eq_some_cases hres with ⟨h, hempty⟩ | ⟨start, stb, hmem, hdb, h⟩
  · have htab : res.tables = [] := by rw [h]
    refine ⟨?_, ?_, ?_⟩
    · rw [htab]; exact List.nodup_nil
    · intro t
      rw [htab, hempty]
      simp
    · refine hexp ?_
      intro p hp
      rw [htab] at hp
      exact absurd hp (List.not_mem_nil p)
  · have htab : res.tables =
        (finalState shuffle failFetch db (get_foreign_key_relationships db)
          max_rows start stb).tablesData := by rw [h]; rfl
    have hKfinal : KeysInv db (finalState shuffle failFetch db
        (get_foreign_key_relationships db) max_rows start stb) := by
      unfold finalState
      refine fillUnreached_KeysInv shuffle db max_rows (allTables db)
        (fun u hu => hu) _ ?_
      exact bfsRun_KeysInv shuffle failFetch db _ max_rows _ _
        (initState_KeysInv shuffle db max_rows start stb hmem)
    obtain ⟨hk1, hk2, hk3⟩ := hKfinal
    have hcov : ∀ t ∈ allTables db, t ∈ res.tables.map Prod.fst := by
      intro t ht
      rw [htab]
      apply hk3
      unfold finalState
      apply fillUnreached_covers shuffle db max_rows (allTables db) _ _ t ht
      intro u hu
      obtain ⟨v, hv⟩ := mem_keys_dictGet_isSome (allTables_sub_keys hu)
      rw [show dbGet db u = dictGet db u from rfl, hv]
      rfl
    have hiff : ∀ t, t ∈ res.tables.map Prod.fst ↔ t ∈ allTables db := by
      intro t
      constructor
      · intro ht
        rw [htab] at ht
        obtain ⟨p, hp, hpt⟩ := List.mem_map.mp ht
        rw [← hpt]
        exact hk2 p hp
      · exact hcov t
    refine ⟨?_, hiff, ?_⟩
    · rw [htab]; exact hk1
    · refine hexp ?_
      intro p hp
      intro hc
      apply hmeta
      rw [← hc]
      exact (hiff p.1).mp (List.mem_map.mpr ⟨p, hp, rfl⟩)

/-! ### C4: the no-foreign-key database -/

/-- Counterexample to C4 as stated: a database with zero declared
foreign keys is handled by the direct path of
`sqlite_to_connected_json_files`, whose per-table documents carry the
method tag `"random"`, not `"random_unrelated"`. -/
theorem no_fk_tag_cex :
    get_foreign_key_relationships dbNoFk = [] ∧
    sqlite_to_connected_json_files id ff0 dbNoFk 1 =
      [("t.json", J.obj [
        ("columns", J.arr [J.str "x"]),
        ("data", J.arr [J.arr [J.int 5]]),
        ("total_rows", J.nat 2),
        ("sampled", J.bool true),
        ("sampling_method", J.str "random")])] ∧
    "random" ≠ "random_unrelated" :=
  ⟨by decide, rfl, by decide⟩

/-- C4 amended: for a database declaring zero foreign keys, every table
is sampled independently and uniformly at random with
`min(max_rows, true_row_count)` rows, and its exported document carries
the sampling-method tag `"random"` (the `random_unrelated` tag belongs
to the unreached-table tail loop of extract_related_samples, which this
path never runs). -/
theorem no_fk_direct_path (shuffle : List Row → List Row)
    (failFetch : String → String → String → String → Bool)
    (db : DB) (max_rows : Nat) (t : String) (tb : DbTable)
    (hlen : ∀ xs, (shuffle xs).length = xs.length)
    (hfk : get_foreign_key_relationships db = [])
    (hdb : dbGet db t = some tb) :
    (t ++ ".json", J.obj [
      ("columns", encodeStrList (tb.cols.map (fun c => c.1))),
      ("data", encodeRows ((shuffle tb.rows).take (min max_rows tb.rows.length))),
      ("total_rows", J.nat tb.rows.length),
      ("sampled", J.bool (decide (min max_rows tb.rows.length < tb.rows.length))),
      ("sampling_method", J.str "random")]) ∈
        sqlite_to_connected_json_files shuffle failFetch db max_rows ∧
    ((shuffle tb.rows).take (min max_rows tb.rows.length)).length =
      min max_rows tb.rows.length := by
  constructor
  · unfold sqlite_to_connected_json_files
    dsimp only
    rw [if_pos hfk]
    apply List.mem_filterMap.mpr
    refine ⟨t, dictGet_mem_keys hdb, ?_⟩
    unfold tableJsonNoFk
    rw [hdb]
  · rw [List.length_take, hlen]
    omega

/-- Witness for the amended C4 at the no-foreign-key database
`dbNoFk`. -/
theorem no_fk_direct_path_witness :
    ("t" ++ ".json", J.obj [
      ("columns", encodeStrList (tbT.cols.map (fun c => c.1))),
      ("data", encodeRows ((id tbT.rows).take (min 1 tbT.rows.length))),
      ("total_rows", J.nat tbT.rows.length),
      ("sampled", J.bool (decide (min 1 tbT.rows.length < tbT.rows.length))),
      ("sampling_method", J.str "random")]) ∈
        sqlite_to_connected_json_files id ff0 dbNoFk 1 ∧
    ((id tbT.rows).take (min 1 tbT.rows.length)).length = min 1 tbT.rows.length :=
  no_fk_direct_path id ff0 dbNoFk 1 "t" tbT (fun _ => rfl) (by decide) (by decide)

/-! ### C7: exported document fields and metadata.json -/

/-- Counterexample to C7 as stated: on the no-foreign-key database
`dbNoFk` the exported table document carries only five fields — no
`row_count` — and no `metadata.json` is written. -/
theorem export_fields_cex :
    (sqlite_to_connected_json_files id ff0 dbNoFk 1).map
      (fun p => (p.1, objKeys p.2)) =
      [("t.json", ["columns", "data", "total_rows", "sampled", "sampling_method"])] ∧
    "row_count" ∉ ["columns", "data", "total_rows", "sampled", "sampling_method"] ∧
    "metadata.json" ∉ (sqlite_to_connected_json_files id ff0 dbNoFk 1).map Prod.fst :=
  ⟨rfl, by decide, by decide⟩

/-- C7 amended: on the relationship-based path every exported per-table
document carries the six fields columns, data, row_count, total_rows,
sampled, sampling_method, and a `metadata.json` (relationship list,
traversal summary, max_rows) is written; on the no-foreign-key direct
path the documents carry only the five fields columns, data,
total_rows, sampled, sampling_method — no `row_count` — and no
`metadata.json` is written. -/
theorem export_fields (shuffle : List Row → List Row)
    (failFetch : String → String → String → String → Bool)
    (db : DB) (max_rows : Nat) :
    (get_foreign_key_relationships db = [] →
      ∀ p ∈ sqlite_to_connected_json_files shuffle failFetch db max_rows,
        objKeys p.2 = ["columns", "data", "total_rows", "sampled", "sampling_method"]) ∧
    (∀ res, get_foreign_key_relationships db ≠ [] →
      extract_related_samples shuffle failFetch db
        (get_foreign_key_relationships db) max_rows = some res →
      ("metadata.json",
        encodeMetadata (get_foreign_key_relationships db) res.meta max_rows) ∈
          sqlite_to_connected_json_files shuffle failFetch db max_rows ∧
      ∀ p ∈ res.tables, p.1 ≠ "__meta__" →
        (p.1 ++ ".json", encodeDoc p.2) ∈
          sqlite_to_connected_json_files shuffle failFetch db max_rows ∧
        objKeys (encodeDoc p.2) =
          ["columns", "data", "row_count", "total_rows", "sampled", "sampling_method"]) := by
  constructor
  · intro hfk p hp
    unfold sqlite_to_connected_json_files at hp
    dsimp only at hp
    rw [if_pos hfk] at hp
    obtain ⟨t, _, htj⟩ := List.mem_filterMap.mp hp
    unfold tableJsonNoFk at htj
    split at htj
    · exact absurd htj (by simp)
    · rename_i tb hdb
      dsimp only at htj
      injection htj with htj
      rw [← htj]
      rfl
  · intro res hfk hres
    constructor
    · unfold sqlite_to_connected_json_files
      dsimp only
      rw [if_neg hfk, hres]
      dsimp only
      exact List.mem_append_right _ (List.mem_singleton.mpr rfl)
    · intro p hp hnm
      constructor
      · unfold sqlite_to_connected_json_files
        dsimp only
        rw [if_neg hfk, hres]
        dsimp only
        apply List.mem_append_left
        apply List.mem_filterMap.mpr
        exact ⟨p, hp, by rw [if_neg hnm]⟩
      · rfl

/-- Witness for the amended C7: the `metadata.json` document on `dbBA`
and the five-field shape on `dbNoFk`. -/
theorem export_fields_witness :
    (("metadata.json",
      encodeMetadata (get_foreign_key_relationships dbBA) resBA.meta 1) ∈
        sqlite_to_connected_json_files id ff0 dbBA 1) ∧
    objKeys (J.obj [
      ("columns", J.arr [J.str "x"]),
      ("data", J.arr [J.arr [J.int 5]]),
      ("total_rows", J.nat 2),
      ("sampled", J.bool true),
      ("sampling_method", J.str "random")]) =
      ["columns", "data", "total_rows", "sampled", "sampling_method"] := by
  constructor
  · exact ((export_fields id ff0 dbBA 1).2 resBA (by decide) (by decide)).1
  · exact (export_fields id ff0 dbNoFk 1).1 (by decide)
      ("t.json", J.obj [
        ("columns", J.arr [J.str "x"]),
        ("data", J.arr [J.arr [J.int 5]]),
        ("total_rows", J.nat 2),
        ("sampled", J.bool true),
        ("sampling_method", J.str "random")])
      (List.mem_cons_self _ _)

/-- Witness for C8 at the concrete database `dbBA` with `max_rows = 1`. -/
theorem coverage_invariant_witness :
    (resBA.tables.map Prod.fst).Nodup ∧
    ("A" ∈ resBA.tables.map Prod.fst ↔ "A" ∈ allTables dbBA) ∧
    (sqlite_to_connected_json_files id ff0 dbBA 1).map Prod.fst =
      (resBA.tables.map Prod.fst).map (fun n => n ++ ".json") ++ ["metadata.json"] := by
  obtain ⟨h1, h2, h3⟩ := coverage_invariant id ff0 dbBA 1 resBA
    (by decide) (by decide) (by decide)
  exact ⟨h1, h2 "A", h3⟩

/-- Witness for C10 at the concrete database `dbBA` with `max_rows = 1`. -/
theorem doc_fields_coherent_witness :
    (TableDoc.mk ["a"] [[(some 1 : Val)]] 1 1 false "initial_random").row_count =
      (TableDoc.mk ["a"] [[(some 1 : Val)]] 1 1 false "initial_random").data.length ∧
    (TableDoc.mk ["a"] [[(some 1 : Val)]] 1 1 false "initial_random").sampled =
      decide ((TableDoc.mk ["a"] [[(some 1 : Val)]] 1 1 false "initial_random").row_count <
        (TableDoc.mk ["a"] [[(some 1 : Val)]] 1 1 false "initial_random").total_rows) :=
  doc_fields_coherent id ff0 dbBA relsBA 1 resBA (fun _ => rfl) (by decide)
    ("B", TableDoc.mk ["a"] [[(some 1 : Val)]] 1 1 false "initial_random") (by decide)

end DataGen
